import Mathlib

/-!
Shallow embedding of LiteShell (`src/liteshell.cpp`), a small interactive
command shell.  Pure fragments of the C++ are translated into executable
Lean functions; the process-orchestration layer (`fork`/`execvp`/`dup2`/
`waitpid`) is modelled by a `plan` datatype that records, for each spawned
stage, how its standard streams are wired and whether the parent waits.
Strings handled character-by-character in the C++ (the tokenizer and the
wildcard matcher) are modelled as `List Char`; whole-token string handling
(the parser and dispatch layers) uses `String`.
-/

namespace LiteShell

/-! ## Tokenizer — `parse_command`, liteshell.cpp lines 165-206 -/

/-- C `isspace` on the ASCII whitespace characters, as used by the
tokenizer's separator test. -/
def cpp_isspace (c : Char) : Bool :=
  c = ' ' || c = '\t' || c = '\n' || c = '\x0b' || c = '\x0c' || c = '\r'

/-- The tokenizer's character scan (liteshell.cpp 172-206): state is the
pair of quote modes, the escape flag and the accumulator `token`; quote
characters toggle their mode and are consumed, a backslash escapes the
next character unconditionally, unquoted whitespace flushes a non-empty
accumulator. -/
def scan (input : List Char) (inq ins esc : Bool) (token : List Char) :
    List (List Char) :=
  match input with
  | [] => if token.isEmpty then [] else [token]
  | c :: cs =>
    if esc then scan cs inq ins false (token ++ [c])
    else if c = '\\' then scan cs inq ins true token
    else if c = '"' ∧ ins = false then scan cs (!inq) ins false token
    else if c = '\'' ∧ inq = false then scan cs inq (!ins) false token
    else if cpp_isspace c ∧ inq = false ∧ ins = false then
      if token.isEmpty then scan cs inq ins false []
      else token :: scan cs inq ins false []
    else scan cs inq ins false (token ++ [c])

/-- `parse_command`'s tokenizing phase: scan the raw line starting outside
both quote modes with an empty accumulator. -/
def tokenize (input : List Char) : List (List Char) :=
  scan input false false false []

/-! ## Wildcard expander — `expand_wildcards`, liteshell.cpp lines 222-287

The directory listing produced by `opendir`/`readdir` is passed in
explicitly as `entries`, in enumeration order; the model covers the case
where the directory could be opened (the `!dir` early return is the
degenerate `[pattern]` case, noted where used). -/

/-- The inner `while (name_pos < filename.size() && filename[name_pos] !=
next_char) name_pos++;` skip loop (liteshell.cpp 259-261).  The loop runs
at most `f.length - np` times, which is used as structural fuel; when the
fuel is exhausted `np ≥ f.length` holds and the loop would not run. -/
def skip_go (f : List Char) (c : Char) : Nat → Nat → Nat
  | 0, np => np
  | fuel + 1, np =>
    if h : np < f.length then
      if f[np] ≠ c then skip_go f c fuel (np + 1) else np
    else np

/-- Entry point of the skip loop at an arbitrary starting index. -/
def skip_to_char (f : List Char) (c : Char) (np : Nat) : Nat :=
  skip_go f c (f.length - np) np

/-- The matcher's main `while (pattern_pos < file_pattern.size() &&
name_pos < filename.size())` loop (liteshell.cpp 251-270), returning the
`match` flag together with the final `pattern_pos` and `name_pos`.
`pattern_pos` increases by exactly one on every iteration, so
`p.length - pp` bounds the iteration count and serves as structural fuel;
fuel 0 coincides with the `pp ≥ p.length` loop exit. -/
def match_go (p f : List Char) : Nat → Nat → Nat → Bool × Nat × Nat
  | 0, pp, np => (true, pp, np)
  | fuel + 1, pp, np =>
    if hp : pp < p.length then
      if hn : np < f.length then
        if p[pp] = '*' then
          if pp = p.length - 1 then (true, pp, f.length)
          else
            match_go p f fuel (pp + 1) (skip_to_char f (p.getD (pp + 1) ' ') np)
        else if p[pp] = f[np] then match_go p f fuel (pp + 1) (np + 1)
        else (false, pp, np)
      else (true, pp, np)
    else (true, pp, np)

/-- One entry's glob test (liteshell.cpp 247-272): run the loop from the
start of both strings, then require `match && pattern_pos ==
file_pattern.size() && name_pos == filename.size()`. -/
def wildcard_match (p f : List Char) : Bool :=
  let r := match_go p f p.length 0 0
  r.1 && (r.2.1 == p.length) && (r.2.2 == f.length)

/-- The hidden-file rule plus the glob test for one directory entry
(liteshell.cpp 243-272): entries starting with `.` are skipped unless the
pattern itself starts with `.`. -/
def entry_ok (filePattern fname : List Char) : Bool :=
  if (filePattern.isEmpty ∨ filePattern.headD ' ' ≠ '.') ∧ fname.headD ' ' = '.'
  then false
  else wildcard_match filePattern fname

/-- Path assembly for a match (liteshell.cpp 273-275): `full_path =
dir_path; if (dir_path != ".") full_path += "/"; full_path += filename`.
Note the `.` directory part is still prepended verbatim, without a
separator. -/
def full_path (dirPath fname : List Char) : List Char :=
  (if dirPath = ['.'] then dirPath else dirPath ++ ['/']) ++ fname

/-- The `while ((entry = readdir(dir)))` collection loop (liteshell.cpp
240-278), keeping matches in enumeration order. -/
def collect_matches (dirPath filePattern : List Char) :
    List (List Char) → List (List Char)
  | [] => []
  | e :: rest =>
    if entry_ok filePattern e then
      full_path dirPath e :: collect_matches dirPath filePattern rest
    else collect_matches dirPath filePattern rest

/-- `pattern.rfind('/')` splitting (liteshell.cpp 227-231): `some (dir,
file)` splits at the last slash, `none` when there is no slash. -/
def split_last_slash : List Char → Option (List Char × List Char)
  | [] => none
  | c :: rest =>
    match split_last_slash rest with
    | some (d, f) => some (c :: d, f)
    | none => if c = '/' then some ([], rest) else none

/-- `expand_wildcards` (liteshell.cpp 222-287) over an explicit directory
listing: split off the directory part, collect matching entries, and fall
back to the literal pattern when nothing matched. -/
def expand_wildcards (pattern : List Char) (entries : List (List Char)) :
    List (List Char) :=
  let dp :=
    match split_last_slash pattern with
    | some (d, f) => (d, f)
    | none => (['.'], pattern)
  let ms := collect_matches dp.1 dp.2 entries
  if ms.isEmpty then [pattern] else ms

/-! ## Command-line parser and process-orchestration plan —
`execute_command` (liteshell.cpp 512-610), `execute_redirection`
(612-661), `execute_pipeline` (663-720)

Process creation is modelled by an `ExecPlan`: the list of stages the
parent forks, each with the wiring its child installs via `dup2` before
`execvp`, plus the parsed background flag and whether the parent calls
`waitpid` before returning. -/

/-- Where a stage's standard input is connected before `execvp`. -/
inductive StdinSrc where
  | inherited : StdinSrc
  | pipeRead (i : Nat) : StdinSrc
  | file (path : String) : StdinSrc
deriving DecidableEq

/-- Where a stage's standard output is connected before `execvp`. -/
inductive StdoutDst where
  | inherited : StdoutDst
  | pipeWrite (i : Nat) : StdoutDst
  | file (path : String) (append : Bool) : StdoutDst
deriving DecidableEq

/-- One forked stage: its argument vector and stream wiring. -/
structure StageWiring where
  args : List String
  stdinSrc : StdinSrc
  stdoutDst : StdoutDst
deriving DecidableEq

/-- The observable effect of one `execute_command` call on the
orchestrating process. -/
inductive ExecPlan where
  | parseError (msg : String) : ExecPlan
  | run (stages : List StageWiring) (background : Bool) (parentWaits : Bool) :
      ExecPlan
deriving DecidableEq

/-- Whether the token is one of the three redirection operators the scan
of liteshell.cpp 523-553 consumes. -/
def is_redir_op (t : String) : Bool :=
  t = "<" || t = ">" || t = ">>"

/-- The redirection scan of liteshell.cpp 523-553: a single left-to-right
pass in which each operator token and its following path token are erased
from `cmd_args` and the corresponding `input_file`/`output_file` variable
is assigned (so a later occurrence of the same operator kind overwrites an
earlier one); an operator with no following token is a syntax error.
Returns the remaining tokens and the final `(input_file, output_file,
append)` values. -/
def scan_redirections :
    List String → String → String → Bool →
    Except String (List String × String × String × Bool)
  | [], inF, outF, app => .ok ([], inF, outF, app)
  | t :: rest, inF, outF, app =>
    if t = "<" then
      match rest with
      | p :: rest2 => scan_redirections rest2 p outF app
      | [] => .error "Syntax error: no input file specified"
    else if t = ">" then
      match rest with
      | p :: rest2 => scan_redirections rest2 inF p false
      | [] => .error "Syntax error: no output file specified"
    else if t = ">>" then
      match rest with
      | p :: rest2 => scan_redirections rest2 inF p true
      | [] => .error "Syntax error: no output file specified"
    else
      match scan_redirections rest inF outF app with
      | .ok (ks, a, b, c) => .ok (t :: ks, a, b, c)
      | .error m => .error m

/-- The pipe-splitting loop of liteshell.cpp 555-571: split the remaining
tokens on `|`, dropping empty stages. -/
def split_pipes_loop :
    List String → List String → List (List String) → List (List String)
  | [], cur, acc => if cur.isEmpty then acc else acc ++ [cur]
  | t :: rest, cur, acc =>
    if t = "|" then
      if cur.isEmpty then split_pipes_loop rest [] acc
      else split_pipes_loop rest [] (acc ++ [cur])
    else split_pipes_loop rest (cur ++ [t]) acc

/-- Entry point of the pipe-splitting loop. -/
def split_pipes (toks : List String) : List (List String) :=
  split_pipes_loop toks [] []

/-- The per-stage wiring installed by `execute_pipeline`'s fork loop
(liteshell.cpp 678-710): stage `i` reads from pipe `i-1` unless it is the
first stage and writes to pipe `i` unless it is the last (`n` is the total
stage count, `i` the current index). -/
def pipeline_wiring_go (n : Nat) : Nat → List (List String) → List StageWiring
  | _, [] => []
  | i, cmd :: rest =>
    { args := cmd
      stdinSrc := if i ≠ 0 then .pipeRead (i - 1) else .inherited
      stdoutDst := if i ≠ n - 1 then .pipeWrite i else .inherited } ::
      pipeline_wiring_go n (i + 1) rest

/-- `execute_pipeline`'s stage wiring for a full command list. -/
def pipeline_wiring (cmds : List (List String)) : List StageWiring :=
  pipeline_wiring_go cmds.length 0 cmds

/-- `execute_command` (liteshell.cpp 512-610) as a plan: strip a trailing
lone `&` into the background flag, run the redirection scan, split on
pipes, then dispatch.  More than one stage goes to `execute_pipeline`
(which waits for every child and receives neither the redirection paths
nor the background flag); a single stage with a redirection path goes to
`execute_redirection` (which always waits); otherwise a plain fork whose
parent waits exactly when the background flag is unset. -/
def execute_command (args : List String) : ExecPlan :=
  let background := args.getLast? == some "&"
  let cmdArgs0 := if args.getLast? == some "&" then args.dropLast else args
  match scan_redirections cmdArgs0 "" "" false with
  | .error m => .parseError m
  | .ok (cmdArgs, inputFile, outputFile, app) =>
    let pipeCmds := split_pipes cmdArgs
    if pipeCmds.length > 1 then
      .run (pipeline_wiring pipeCmds) background true
    else if inputFile ≠ "" ∨ outputFile ≠ "" then
      .run [{ args := cmdArgs
              stdinSrc := if inputFile ≠ "" then .file inputFile else .inherited
              stdoutDst :=
                if outputFile ≠ "" then .file outputFile app else .inherited }]
        background true
    else
      .run [{ args := cmdArgs, stdinSrc := .inherited, stdoutDst := .inherited }]
        background (!background)

/-- Whether the parent blocks in `waitpid` for the plan. -/
def plan_waits : ExecPlan → Bool
  | .parseError _ => false
  | .run _ _ w => w

/-! ## Builtin dispatcher — `builtins` (liteshell.cpp 46-48), `is_builtin`
(289-291) and the dispatch in `main` (787-802) -/

/-- The fixed builtin name list (liteshell.cpp 46-48). -/
def builtins : List String :=
  ["cd", "help", "exit", "history", "pwd", "ls", "alias"]

/-- `is_builtin` (liteshell.cpp 289-291). -/
def is_builtin (cmd : String) : Bool :=
  builtins.contains cmd

/-- How `main`'s loop body routes a parsed token list. -/
inductive Dispatch where
  | skip : Dispatch
  | builtin (args : List String) : Dispatch
  | external (args : List String) : Dispatch
deriving DecidableEq

/-- The routing in `main` (liteshell.cpp 787-802): an empty token list is
skipped; otherwise `is_builtin(args[0])` alone decides between
`execute_builtin` (in-process) and `execute_command` (external), with no
look at the rest of the line. -/
def main_dispatch : List String → Dispatch
  | [] => .skip
  | a :: rest => if is_builtin a then .builtin (a :: rest) else .external (a :: rest)

/-! ## `cd` builtin — `handle_cd`, liteshell.cpp 452-484

The directory state seen by `handle_cd`: the current directory (`getcwd`,
modelled as always succeeding), the `OLDPWD` environment variable and the
`HOME` environment variable.  `chdir` is modelled by a caller-supplied
`chdirTo` returning the new current directory on success and `none` on
failure. -/

/-- Directory-related state of the shell process. -/
structure CdState where
  cwd : String
  oldpwd : Option String
  home : Option String
deriving DecidableEq

/-- `handle_cd` (liteshell.cpp 452-484).  No argument: `chdir(HOME)` when
`HOME` is set, touching nothing else.  One argument `-`: `chdir(OLDPWD)`
when set, leaving `OLDPWD` itself unchanged.  One other argument:
`setenv("OLDPWD", getcwd(), 1)` first, then `chdir(path)` — the recording
happens before the change is attempted, whether or not it succeeds.  More
arguments: error, no state change. -/
def handle_cd (chdirTo : String → Option String) (st : CdState)
    (args : List String) : CdState :=
  match args with
  | [_] =>
    match st.home with
    | some h =>
      match chdirTo h with
      | some c => { st with cwd := c }
      | none => st
    | none => st
  | [_, path] =>
    if path = "-" then
      match st.oldpwd with
      | some o =>
        match chdirTo o with
        | some c => { st with cwd := c }
        | none => st
      | none => st
    else
      let st2 := { st with oldpwd := some st.cwd }
      match chdirTo path with
      | some c => { st2 with cwd := c }
      | none => st2
  | _ => st

/-! ## `history` builtin — `handle_history`, liteshell.cpp 337-358 -/

/-- Result of `std::stoi`: skip leading whitespace, parse an optional
sign and a run of base-10 digits; throw `invalid_argument` when no digit
is found and `out_of_range` when the value does not fit in `int`. -/
inductive StoiResult where
  | ok (n : Int) : StoiResult
  | invalidArgument : StoiResult
  | outOfRange : StoiResult
deriving DecidableEq

/-- `std::stoi` on the argument string. -/
def cpp_stoi (s : String) : StoiResult :=
  let cs := s.toList.dropWhile cpp_isspace
  let sign : Int × List Char :=
    match cs with
    | '-' :: r => (-1, r)
    | '+' :: r => (1, r)
    | r => (1, r)
  let ds := sign.2.takeWhile Char.isDigit
  if ds.isEmpty then .invalidArgument
  else
    let v : Int :=
      sign.1 * (ds.foldl (fun acc c => acc * 10 + (c.toNat - 48) : Nat → Char → Nat) 0 : Nat)
    if v < -(2 ^ 31) ∨ v > 2 ^ 31 - 1 then .outOfRange else .ok v

/-- Outcome of one `handle_history` call.  `crash` marks an exception that
escapes the function: the `try` block only catches
`std::invalid_argument`, so `std::out_of_range` from `stoi` propagates out
of `main` and terminates the shell process. -/
inductive HistoryOutcome where
  | shown (entries : List String) : HistoryOutcome
  | error (msg : String) : HistoryOutcome
  | crash : HistoryOutcome
deriving DecidableEq

/-- The display slice (liteshell.cpp 354-357): `start_index = max(0,
size - show_count)` and entries from there on are printed. -/
def history_tail (history : List String) (showCount : Int) : List String :=
  let start := max 0 ((history.length : Int) - showCount)
  history.drop start.toNat

/-- `handle_history` (liteshell.cpp 337-358): `show_count` starts at the
history size; a second token is parsed with `stoi` inside a `try` that
catches only `invalid_argument` (message), a negative count is an error
message, otherwise `show_count = min(count, size)` and the tail slice is
shown. -/
def handle_history (args : List String) (history : List String) :
    HistoryOutcome :=
  match args with
  | _ :: a1 :: _ =>
    (match cpp_stoi a1 with
     | .invalidArgument => .error ("history: " ++ a1 ++ ": numeric argument required")
     | .outOfRange => .crash
     | .ok n =>
       if n < 0 then .error "history: count must be positive"
       else .shown (history_tail history (min n (history.length : Int))))
  | _ => .shown (history_tail history (history.length : Int))

/-! ## History store — `add_to_history` (liteshell.cpp 126-141) and
`load_history` (95-107) -/

/-- `MAX_HISTORY` (liteshell.cpp 42). -/
def MAX_HISTORY : Nat := 1000

/-- `add_to_history` (liteshell.cpp 126-141): ignore empty commands and
immediate duplicates, append, and erase the first (oldest) entry when the
size exceeds `MAX_HISTORY`. -/
def add_to_history (h : List String) (command : String) : List String :=
  if command = "" then h
  else if h.getLast? = some command then h
  else
    let h2 := h ++ [command]
    if h2.length > MAX_HISTORY then h2.tail else h2

/-- The `load_history` read loop (liteshell.cpp 98-105): append each
non-empty line and stop as soon as the size reaches `MAX_HISTORY`. -/
def load_history_loop : List String → List String → List String
  | h, [] => h
  | h, line :: rest =>
    if line = "" then load_history_loop h rest
    else
      let h2 := h ++ [line]
      if h2.length ≥ MAX_HISTORY then h2 else load_history_loop h2 rest

/-- `load_history` (liteshell.cpp 95-107) from the history file's lines,
starting from the empty in-memory history present at startup. -/
def load_history (lines : List String) : List String :=
  load_history_loop [] lines

/-! ## Helper lemmas -/

/-- One non-operator token is kept by the redirection scan and the scan
continues behind it. -/
theorem scan_redirections_cons_free (t : String) (xs : List String)
    (inF outF : String) (app : Bool) (ht : is_redir_op t = false) :
    scan_redirections (t :: xs) inF outF app =
      match scan_redirections xs inF outF app with
      | .ok (ks, a, b, c) => .ok (t :: ks, a, b, c)
      | .error m => .error m := by
  have h1 : ¬ t = "<" := by intro e; simp [is_redir_op, e] at ht
  have h2 : ¬ t = ">" := by intro e; simp [is_redir_op, e] at ht
  have h3 : ¬ t = ">>" := by intro e; simp [is_redir_op, e] at ht
  cases xs with
  | nil => simp [scan_redirections, h1, h2, h3]
  | cons p r => simp [scan_redirections, h1, h2, h3]

/-- The redirection scan passes over a run of non-operator tokens,
keeping them and the running state. -/
theorem scan_redirections_append_free (ts : List String) :
    ∀ (rest : List String) (inF outF : String) (app : Bool),
      (∀ t ∈ ts, is_redir_op t = false) →
      scan_redirections (ts ++ rest) inF outF app =
        match scan_redirections rest inF outF app with
        | .ok (ks, a, b, c) => .ok (ts ++ ks, a, b, c)
        | .error m => .error m := by
  induction ts with
  | nil =>
    intro rest inF outF app _
    simp only [List.nil_append]
    cases hr : scan_redirections rest inF outF app with
    | ok v => obtain ⟨ks, a, b, c⟩ := v; simp
    | error m => simp
  | cons t ts ih =>
    intro rest inF outF app h
    rw [List.cons_append,
      scan_redirections_cons_free t (ts ++ rest) inF outF app (h t (by simp)),
      ih rest inF outF app (fun x hx => h x (by simp [hx]))]
    cases hr : scan_redirections rest inF outF app with
    | ok v => obtain ⟨ks, a, b, c⟩ := v; simp
    | error m => simp

/-- A token list without redirection operators is returned unchanged by
the scan, with no paths recorded. -/
theorem scan_redirections_no_ops (ts : List String)
    (h : ∀ t ∈ ts, is_redir_op t = false) :
    scan_redirections ts "" "" false = .ok (ts, "", "", false) := by
  have := scan_redirections_append_free ts [] "" "" false h
  simpa [scan_redirections] using this

/-- Pipe splitting over a run without `|` appends the run to the current
stage. -/
theorem split_pipes_loop_no_pipe (ts : List String) :
    ∀ (cur : List String) (acc : List (List String)), "|" ∉ ts →
      split_pipes_loop ts cur acc =
        if (cur ++ ts).isEmpty then acc else acc ++ [cur ++ ts] := by
  induction ts with
  | nil => intro cur acc _; simp [split_pipes_loop]
  | cons t ts ih =>
    intro cur acc h
    have ht : ¬ t = "|" := fun e => h (by simp [e])
    have h' : "|" ∉ ts := fun m => h (List.mem_cons_of_mem _ m)
    simp only [split_pipes_loop, if_neg ht]
    rw [ih (cur ++ [t]) acc h']
    simp

/-- The head stage built by `execute_pipeline`'s fork loop reads inherited
standard input. -/
theorem pipeline_wiring_head_stdin (cmds : List (List String)) (h : cmds ≠ []) :
    ((pipeline_wiring cmds).head?).map StageWiring.stdinSrc =
      some StdinSrc.inherited := by
  cases cmds with
  | nil => exact absurd rfl h
  | cons c rest => simp [pipeline_wiring, pipeline_wiring_go]

/-- The last stage built by the fork loop writes inherited standard
output, at any starting index consistent with the total count. -/
theorem pipeline_wiring_go_last_stdout (cmds : List (List String)) :
    ∀ n i : Nat, i + cmds.length = n → cmds ≠ [] →
      ((pipeline_wiring_go n i cmds).getLast?).map StageWiring.stdoutDst =
        some StdoutDst.inherited := by
  induction cmds with
  | nil => intro n i _ hne; exact absurd rfl hne
  | cons c rest ih =>
    intro n i hn hne
    cases rest with
    | nil =>
      have hi : ¬ i ≠ n - 1 := by simp at hn; omega
      simp [pipeline_wiring_go, hi]
    | cons c2 r2 =>
      have h2 : (i + 1) + (c2 :: r2).length = n := by
        simp at hn ⊢; omega
      rw [pipeline_wiring_go, pipeline_wiring_go, List.getLast?_cons_cons]
      exact ih n (i + 1) h2 (by simp)

/-- The last stage of `execute_pipeline`'s wiring writes inherited
standard output. -/
theorem pipeline_wiring_last_stdout (cmds : List (List String)) (h : cmds ≠ []) :
    ((pipeline_wiring cmds).getLast?).map StageWiring.stdoutDst =
      some StdoutDst.inherited :=
  pipeline_wiring_go_last_stdout cmds cmds.length 0 (by simp) h

/-- The collection loop of `expand_wildcards` is the order-preserving
filter of the entry list, mapped through path assembly. -/
theorem collect_matches_eq_filter_map (dirPath filePattern : List Char)
    (entries : List (List Char)) :
    collect_matches dirPath filePattern entries =
      (entries.filter (entry_ok filePattern)).map (full_path dirPath) := by
  induction entries with
  | nil => rfl
  | cons e rest ih =>
    by_cases he : entry_ok filePattern e
    · simp [collect_matches, List.filter_cons, he, ih]
    · simp [collect_matches, List.filter_cons, he, ih]

/-- A pattern without `/` has no last slash to split at. -/
theorem split_last_slash_none (pattern : List Char) (h : '/' ∉ pattern) :
    split_last_slash pattern = none := by
  induction pattern with
  | nil => rfl
  | cons c rest ih =>
    have hc : ¬ c = '/' := fun e => h (by simp [e])
    have h' : '/' ∉ rest := fun m => h (List.mem_cons_of_mem _ m)
    simp [split_last_slash, ih h', hc]

/-- The matcher's loop leaves `pattern_pos` strictly below the pattern
length whenever the pattern ends in `*`: the `*`-at-end arm breaks without
consuming the star, and no other arm can consume it either. -/
theorem match_go_pp_lt (p f : List Char) (hstar : p.getLast? = some '*') :
    ∀ (fuel pp np : Nat), fuel = p.length - pp → pp < p.length →
      (match_go p f fuel pp np).2.1 < p.length := by
  intro fuel
  induction fuel with
  | zero => intro pp np hf hlt; omega
  | succ k ih =>
    intro pp np hf hlt
    simp only [match_go]
    rw [dif_pos hlt]
    by_cases hn : np < f.length
    · rw [dif_pos hn]
      by_cases hs : p[pp] = '*'
      · rw [if_pos hs]
        by_cases hlast : pp = p.length - 1
        · rw [if_pos hlast]; exact hlt
        · rw [if_neg hlast]
          exact ih (pp + 1) _ (by omega) (by omega)
      · rw [if_neg hs]
        have hne : pp ≠ p.length - 1 := by
          intro e
          apply hs
          have h1 : p[pp]? = some '*' := by
            rw [e, ← List.getLast?_eq_getElem?]; exact hstar
          rw [List.getElem?_eq_getElem hlt] at h1
          exact Option.some_injective _ h1
        by_cases heq : p[pp] = f[np]
        · rw [if_pos heq]
          exact ih (pp + 1) _ (by omega) (by omega)
        · rw [if_neg heq]; exact hlt
    · rw [dif_neg hn]; exact hlt

/-- The quoted-segment run of the tokenizer: inside double quotes, a run
free of `"` and backslash is appended verbatim to the accumulator,
whitespace included. -/
theorem scan_quoted (w : List Char) :
    ∀ (rest acc : List Char), (∀ c ∈ w, c ≠ '"' ∧ c ≠ '\\') →
      scan (w ++ rest) true false false acc =
        scan rest true false false (acc ++ w) := by
  induction w with
  | nil => intro rest acc _; simp
  | cons c cs ih =>
    intro rest acc h
    have hc := h c (by simp)
    simp only [List.cons_append, scan]
    simp only [hc.1, hc.2, Bool.false_eq_true, Bool.true_eq_false, false_and,
      and_false, if_false, ite_false, List.append_eq]
    rw [ih rest (acc ++ [c]) (fun x hx => h x (by simp [hx]))]
    simp

/-- The last element of a nonempty constant list. -/
theorem getLast?_replicate_succ (n : Nat) (a : String) :
    (List.replicate (n + 1) a).getLast? = some a := by
  induction n with
  | zero => rfl
  | succ k ih =>
    rw [List.replicate_succ, List.replicate_succ, List.getLast?_cons_cons,
      ← List.replicate_succ]
    exact ih

/-- The load loop keeps the history at or below the cap as long as it
starts strictly below it. -/
theorem load_history_loop_le (ls : List String) :
    ∀ h : List String, h.length < MAX_HISTORY →
      (load_history_loop h ls).length ≤ MAX_HISTORY := by
  induction ls with
  | nil => intro h hl; exact Nat.le_of_lt hl
  | cons line rest ih =>
    intro h hl
    simp only [load_history_loop]
    by_cases he : line = ""
    · rw [if_pos he]; exact ih h hl
    · rw [if_neg he]
      by_cases hm : (h ++ [line]).length ≥ MAX_HISTORY
      · rw [if_pos hm]; simp; omega
      · rw [if_neg hm]
        refine ih _ ?_
        simp at hm ⊢
        omega

/-! ## Claims -/

/-- Claim C1, counterexample: the pipeline `sleep 100 | cat &` parses with
the background flag set, yet the resulting plan still has the parent
waiting (`execute_pipeline` is reached without the background flag and
calls `waitpid` on every stage), refuting "does not wait for any spawned
child process ... for every pipeline spec with background = true". -/
theorem background_pipeline_still_waits :
    execute_command ["sleep", "100", "|", "cat", "&"] =
      .run [⟨["sleep", "100"], .inherited, .pipeWrite 0⟩,
            ⟨["cat"], .pipeRead 0, .inherited⟩] true true ∧
    plan_waits (execute_command ["sleep", "100", "|", "cat", "&"]) = true := by
  exact ⟨by decide, by decide⟩

/-- Claim C1, amended: stripping a trailing lone `&` always sets the
background flag, but the parent skips `waitpid` only when the remaining
line is a single stage with no redirection; a background pipeline and a
background redirected command still wait. -/
theorem background_no_wait_single_stage_only (args0 : List String)
    (hops : ∀ t ∈ args0, is_redir_op t = false) (hpipe : "|" ∉ args0) :
    execute_command (args0 ++ ["&"]) =
      .run [{ args := args0, stdinSrc := .inherited, stdoutDst := .inherited }]
        true false ∧
    plan_waits (execute_command ["sleep", "100", "|", "cat", "&"]) = true ∧
    plan_waits (execute_command ["cat", "<", "in.txt", "&"]) = true := by
  refine ⟨?_, by decide, by decide⟩
  have hlast : (args0 ++ ["&"]).getLast? = some "&" := by simp
  have hdrop : (args0 ++ ["&"]).dropLast = args0 := by simp
  simp only [execute_command, hlast, hdrop, beq_self_eq_true, if_true]
  rw [scan_redirections_no_ops args0 hops]
  have hsp : split_pipes args0 =
      if args0.isEmpty then [] else [args0] := by
    have := split_pipes_loop_no_pipe args0 [] [] hpipe
    simpa [split_pipes] using this
  have hlen : ¬ (split_pipes args0).length > 1 := by
    rw [hsp]; by_cases he : args0.isEmpty <;> simp [he]
  simp [hlen]

/-- Claim C1, witness for the amended theorem at `sleep 100 &`. -/
theorem background_no_wait_single_stage_only_witness :
    execute_command (["sleep", "100"] ++ ["&"]) =
      .run [{ args := ["sleep", "100"], stdinSrc := .inherited,
              stdoutDst := .inherited }] true false ∧
    plan_waits (execute_command ["sleep", "100", "|", "cat", "&"]) = true ∧
    plan_waits (execute_command ["cat", "<", "in.txt", "&"]) = true :=
  background_no_wait_single_stage_only ["sleep", "100"] (by decide) (by decide)

/-- Claim C2, counterexample: for `cat < in.txt | wc > out.txt` both
redirection paths are parsed and removed, yet the two-stage plan wires the
first stage's standard input to the inherited descriptor, not to
`in.txt`, and the last stage's standard output to the inherited
descriptor, not to `out.txt` — `execute_pipeline` never receives the
parsed paths. -/
theorem pipeline_redirection_not_connected :
    execute_command ["cat", "<", "in.txt", "|", "wc", ">", "out.txt"] =
      .run [⟨["cat"], .inherited, .pipeWrite 0⟩,
            ⟨["wc"], .pipeRead 0, .inherited⟩] false true ∧
    StageWiring.stdinSrc ⟨["cat"], .inherited, .pipeWrite 0⟩ ≠
      StdinSrc.file "in.txt" := by
  exact ⟨by decide, by decide⟩

/-- Claim C2, amended: in every plan with two or more stages the first
stage reads the inherited standard input and the last stage writes the
inherited standard output — parsed redirection paths are discarded for
multi-stage pipelines, never connected. -/
theorem multi_stage_endpoints_inherited (args : List String)
    (stages : List StageWiring) (bg w : Bool)
    (hrun : execute_command args = .run stages bg w)
    (hlen : 2 ≤ stages.length) :
    (stages.head?).map StageWiring.stdinSrc = some StdinSrc.inherited ∧
    (stages.getLast?).map StageWiring.stdoutDst = some StdoutDst.inherited := by
  simp only [execute_command] at hrun
  split at hrun
  · simp at hrun
  · split at hrun
    · rename_i hp
      rw [ExecPlan.run.injEq] at hrun
      obtain ⟨hs, -, -⟩ := hrun
      subst hs
      refine ⟨pipeline_wiring_head_stdin _ ?hne, pipeline_wiring_last_stdout _ ?hne⟩
      intro e
      rw [e] at hp
      simp at hp
    · split at hrun
      · rw [ExecPlan.run.injEq] at hrun
        obtain ⟨hs, -, -⟩ := hrun
        subst hs
        simp at hlen
      · rw [ExecPlan.run.injEq] at hrun
        obtain ⟨hs, -, -⟩ := hrun
        subst hs
        simp at hlen

/-- Claim C2, witness for the amended theorem at the two-stage line
`a | b`. -/
theorem multi_stage_endpoints_inherited_witness :
    (([⟨["a"], .inherited, .pipeWrite 0⟩,
       ⟨["b"], .pipeRead 0, .inherited⟩] : List StageWiring).head?).map
        StageWiring.stdinSrc = some StdinSrc.inherited ∧
    (([⟨["a"], .inherited, .pipeWrite 0⟩,
       ⟨["b"], .pipeRead 0, .inherited⟩] : List StageWiring).getLast?).map
        StageWiring.stdoutDst = some StdoutDst.inherited :=
  multi_stage_endpoints_inherited ["a", "|", "b"]
    [⟨["a"], .inherited, .pipeWrite 0⟩, ⟨["b"], .pipeRead 0, .inherited⟩]
    false true (by decide) (by decide)

/-- Claim C3, counterexample: the line `cd /tmp | cat` has a builtin first
word and a `|` token, and `main` dispatches it to the in-process builtin
handler, not to external-process execution — `is_builtin` is consulted on
`args[0]` before any pipeline parsing. -/
theorem piped_builtin_dispatched_in_process :
    main_dispatch ["cd", "/tmp", "|", "cat"] =
      .builtin ["cd", "/tmp", "|", "cat"] ∧
    main_dispatch ["cd", "/tmp", "|", "cat"] ≠
      .external ["cd", "/tmp", "|", "cat"] := by
  exact ⟨by decide, by decide⟩

/-- Claim C3, amended: dispatch looks only at the first token; a line
whose first word is a builtin name is handled in-process even when a `|`
token is present, with the pipe and the following words passed to the
builtin as ordinary arguments. -/
theorem builtin_dispatch_first_word_only (a : String) (rest : List String)
    (hb : is_builtin a = true) (_hp : "|" ∈ rest) :
    main_dispatch (a :: rest) = .builtin (a :: rest) := by
  simp [main_dispatch, hb]

/-- Claim C3, witness for the amended theorem at `cd /tmp | cat`. -/
theorem builtin_dispatch_first_word_only_witness :
    main_dispatch ("cd" :: ["/tmp", "|", "cat"]) =
      .builtin ("cd" :: ["/tmp", "|", "cat"]) :=
  builtin_dispatch_first_word_only "cd" ["/tmp", "|", "cat"] (by decide)
    (by decide)

/-- Claim C4, counterexample: for `cmd < a < b` the recorded input path is
`b`, the path after the second `<`, not `a` — each match assigns
`input_file` in place, so a later occurrence overwrites the earlier one
and the net effect is last-occurrence-wins. -/
theorem duplicate_redirection_records_second_path :
    scan_redirections ["cmd", "<", "a", "<", "b"] "" "" false =
      .ok (["cmd"], "b", "", false) ∧
    ("b" : String) ≠ "a" := by
  exact ⟨rfl, by decide⟩

/-- Claim C4, amended: duplicates of an operator kind are all consumed
together with their path tokens in one left-to-right scan, and the path
recorded is the one after the last occurrence. -/
theorem duplicate_redirection_last_wins (pre mid post : List String)
    (a b : String)
    (h1 : ∀ t ∈ pre, is_redir_op t = false)
    (h2 : ∀ t ∈ mid, is_redir_op t = false)
    (h3 : ∀ t ∈ post, is_redir_op t = false) :
    scan_redirections (pre ++ ["<", a] ++ mid ++ ["<", b] ++ post) "" "" false =
      .ok (pre ++ mid ++ post, b, "", false) := by
  have hpost : scan_redirections post b "" false =
      .ok (post, b, "", false) := by
    have := scan_redirections_append_free post [] b "" false h3
    simpa [scan_redirections] using this
  have hmid : scan_redirections (mid ++ ("<" :: b :: post)) a "" false =
      .ok (mid ++ post, b, "", false) := by
    rw [scan_redirections_append_free mid ("<" :: b :: post) a "" false h2]
    have : scan_redirections ("<" :: b :: post) a "" false =
        scan_redirections post b "" false := by
      simp [scan_redirections]
    rw [this, hpost]
  have hassoc : pre ++ ["<", a] ++ mid ++ ["<", b] ++ post =
      pre ++ ("<" :: a :: (mid ++ ("<" :: b :: post))) := by
    simp
  rw [hassoc, scan_redirections_append_free pre _ "" "" false h1]
  have : scan_redirections ("<" :: a :: (mid ++ ("<" :: b :: post))) "" "" false =
      scan_redirections (mid ++ ("<" :: b :: post)) a "" false := by
    simp [scan_redirections]
  rw [this, hmid]
  simp

/-- Claim C4, witness for the amended theorem at `cmd < a < b`. -/
theorem duplicate_redirection_last_wins_witness :
    scan_redirections (["cmd"] ++ ["<", "a"] ++ [] ++ ["<", "b"] ++ []) "" ""
        false =
      .ok (["cmd"] ++ [] ++ [], "b", "", false) :=
  duplicate_redirection_last_wins ["cmd"] [] [] "a" "b" (by decide) (by decide)
    (by decide)

/-- Claim C5: a pattern whose last character is `*` matches no filename at
all — the `*`-at-end arm of the loop breaks with `pattern_pos` still on
the star, so the final `pattern_pos == file_pattern.size()` test always
fails; in particular `foo*` fails to match `foobar` and the whole
expansion falls back to the literal pattern.  The claim's described
behavior (accept every filename extending the literal prefix) is the
code's evident intent — the arm sets `name_pos` to the filename length
precisely so the final test would succeed — making this a code bug. -/
theorem star_suffix_pattern_never_matches (p f : List Char)
    (hstar : p.getLast? = some '*') :
    wildcard_match p f = false ∧
    expand_wildcards "foo*".toList ["foobar".toList] = ["foo*".toList] := by
  refine ⟨?_, by decide⟩
  have hne : p ≠ [] := by intro e; rw [e] at hstar; simp at hstar
  have h0 : 0 < p.length := List.length_pos.mpr hne
  have h := match_go_pp_lt p f hstar p.length 0 0 (by omega) h0
  have hb : ((match_go p f p.length 0 0).2.1 == p.length) = false := by
    simp [Nat.ne_of_lt h]
  simp [wildcard_match, hb]

/-- Claim C5, witness: the theorem applied to pattern `foo*` and filename
`foobar`. -/
theorem star_suffix_pattern_never_matches_witness :
    ("foo*".toList.getLast? = some '*') ∧
    (wildcard_match "foo*".toList "foobar".toList = false ∧
     expand_wildcards "foo*".toList ["foobar".toList] = ["foo*".toList]) :=
  ⟨by decide, star_suffix_pattern_never_matches _ _ (by decide)⟩

/-- Claim C6, counterexample: on a directory listed in the order
`foo.txt`, `bar.txt`, `.hidden`, pattern `*.txt` expands to
`[".foo.txt", ".bar.txt"]` — the matches keep directory-entry order (and
carry the verbatim `.` directory part), not the sorted
`["bar.txt", "foo.txt"]` the claim requires. -/
theorem expansion_not_sorted :
    expand_wildcards "*.txt".toList
        ["foo.txt".toList, "bar.txt".toList, ".hidden".toList] =
      [".foo.txt".toList, ".bar.txt".toList] ∧
    [".foo.txt".toList, ".bar.txt".toList] ≠
      ["bar.txt".toList, "foo.txt".toList] := by
  exact ⟨by decide, by decide⟩

/-- Claim C6, amended: wildcard expansion returns matches in
directory-entry order — the result (when any entry matches) is the
order-preserving filter of the listing mapped through path assembly, a
sublist of the listing in its original order; nothing is sorted.  On the
example listing the result is `[".foo.txt", ".bar.txt"]`. -/
theorem expansion_keeps_entry_order (pattern : List Char)
    (entries : List (List Char)) (hns : '/' ∉ pattern) :
    (expand_wildcards pattern entries =
      if ((entries.filter (entry_ok pattern)).map (full_path ['.'])).isEmpty
      then [pattern]
      else (entries.filter (entry_ok pattern)).map (full_path ['.'])) ∧
    List.Sublist ((entries.filter (entry_ok pattern)).map (full_path ['.']))
      (entries.map (full_path ['.'])) ∧
    expand_wildcards "*.txt".toList
        ["foo.txt".toList, "bar.txt".toList, ".hidden".toList] =
      [".foo.txt".toList, ".bar.txt".toList] := by
  refine ⟨?_, (List.filter_sublist entries).map (full_path ['.']), by decide⟩
  simp only [expand_wildcards, split_last_slash_none pattern hns,
    collect_matches_eq_filter_map]

/-- Claim C6, witness for the amended theorem at pattern `*.txt` over the
listing `foo.txt`, `bar.txt`, `.hidden`. -/
theorem expansion_keeps_entry_order_witness :
    (expand_wildcards "*.txt".toList
        ["foo.txt".toList, "bar.txt".toList, ".hidden".toList] =
      if ((["foo.txt".toList, "bar.txt".toList, ".hidden".toList].filter
            (entry_ok "*.txt".toList)).map (full_path ['.'])).isEmpty
      then ["*.txt".toList]
      else (["foo.txt".toList, "bar.txt".toList, ".hidden".toList].filter
            (entry_ok "*.txt".toList)).map (full_path ['.'])) ∧
    List.Sublist ((["foo.txt".toList, "bar.txt".toList,
        ".hidden".toList].filter (entry_ok "*.txt".toList)).map
          (full_path ['.']))
      (["foo.txt".toList, "bar.txt".toList, ".hidden".toList].map
        (full_path ['.'])) ∧
    expand_wildcards "*.txt".toList
        ["foo.txt".toList, "bar.txt".toList, ".hidden".toList] =
      [".foo.txt".toList, ".bar.txt".toList] :=
  expansion_keeps_entry_order "*.txt".toList
    ["foo.txt".toList, "bar.txt".toList, ".hidden".toList] (by decide)

/-- Claim C7, counterexample: `cd` with no arguments changes to the home
directory without recording the pre-change directory — starting at `/a`
with `HOME=/h` and no `OLDPWD`, the change succeeds (`cwd` becomes `/h`)
yet `OLDPWD` stays unset instead of becoming `/a`. -/
theorem cd_home_does_not_record_oldpwd :
    handle_cd (fun p => some p) ⟨"/a", none, some "/h"⟩ ["cd"] =
      ⟨"/h", none, some "/h"⟩ ∧
    (CdState.mk "/h" none (some "/h")).oldpwd ≠ some "/a" := by
  exact ⟨by decide, by decide⟩

/-- Claim C7, amended: only the one-argument form with a path other than
`-` records `OLDPWD`, and it records the pre-change directory before the
change is attempted — whether or not the change succeeds; `cd` with no
arguments and `cd -` leave `OLDPWD` untouched. -/
theorem oldpwd_recorded_only_by_path_form (chdirTo : String → Option String)
    (st : CdState) (path : String) (hp : path ≠ "-") :
    (handle_cd chdirTo st ["cd", path]).oldpwd = some st.cwd ∧
    (handle_cd chdirTo st ["cd"]).oldpwd = st.oldpwd ∧
    (handle_cd chdirTo st ["cd", "-"]).oldpwd = st.oldpwd := by
  refine ⟨?_, ?_, ?_⟩
  · simp only [handle_cd, if_neg hp]
    split <;> rfl
  · simp only [handle_cd]
    split
    · split <;> rfl
    · rfl
  · simp [handle_cd]
    split
    · split <;> rfl
    · rfl

/-- Claim C7, witness for the amended theorem with a failing `chdir` from
`/a`. -/
theorem oldpwd_recorded_only_by_path_form_witness :
    (handle_cd (fun _ => none) ⟨"/a", none, none⟩ ["cd", "/tmp"]).oldpwd =
      some "/a" ∧
    (handle_cd (fun _ => none) ⟨"/a", none, none⟩ ["cd"]).oldpwd = none ∧
    (handle_cd (fun _ => none) ⟨"/a", none, none⟩ ["cd", "-"]).oldpwd = none :=
  oldpwd_recorded_only_by_path_form (fun _ => none) ⟨"/a", none, none⟩ "/tmp"
    (by decide)

/-- Claim C8: a numerically overflowing count argument to the history
builtin is not reported as a builtin error — `stoi` throws
`std::out_of_range`, the `try` block catches only
`std::invalid_argument`, and the exception escapes `main`, terminating
the whole shell process.  This contradicts the stated design ("no error
in this core is fatal to the orchestrating process itself except an
explicit exit"), whose intent the catch clause itself shows, so the code
is the bug.  A merely non-numeric argument is handled as the claim says. -/
theorem history_overflow_count_kills_shell :
    handle_history ["history", "99999999999999999999"] ["ls"] =
      .crash ∧
    handle_history ["history", "abc"] ["ls"] =
      .error "history: abc: numeric argument required" := by
  exact ⟨by decide, by decide⟩

/-- Claim C9: with balanced double quotes the quote characters are
consumed, never emitted, and quoted whitespace stays inside one token:
for every nonempty quoted segment free of `"` and backslash, tokenizing
`echo "<segment>"` yields exactly the token `echo` followed by the
segment verbatim — in particular `echo "a b"` yields `["echo", "a b"]`. -/
theorem quoted_whitespace_single_token (w : List Char) (hw : w ≠ [])
    (hq : ∀ c ∈ w, c ≠ '"' ∧ c ≠ '\\') :
    tokenize (['e', 'c', 'h', 'o', ' ', '"'] ++ w ++ ['"']) =
      [['e', 'c', 'h', 'o'], w] := by
  have h1 : tokenize (['e', 'c', 'h', 'o', ' ', '"'] ++ w ++ ['"']) =
      ['e', 'c', 'h', 'o'] :: scan (w ++ ['"']) true false false [] := rfl
  rw [h1, scan_quoted w ['"'] [] hq]
  cases w with
  | nil => exact absurd rfl hw
  | cons a as => rfl

/-- Claim C9, witness: the theorem at segment `a b`, i.e. the line
`echo "a b"`. -/
theorem quoted_whitespace_single_token_witness :
    tokenize (['e', 'c', 'h', 'o', ' ', '"'] ++ ['a', ' ', 'b'] ++ ['"']) =
      [['e', 'c', 'h', 'o'], ['a', ' ', 'b']] :=
  quoted_whitespace_single_token ['a', ' ', 'b'] (by decide) (by decide)

/-- Claim C10: the in-memory history never exceeds `MAX_HISTORY = 1000`
entries — loading from file stops at the cap, adding preserves the bound,
and an add that would exceed it evicts the oldest entry (the list head). -/
theorem history_capped_at_max (lines hAny h : List String) (cmd cmdAny : String)
    (h1 : hAny.length ≤ MAX_HISTORY) (h2 : h.length = MAX_HISTORY)
    (h3 : cmd ≠ "") (h4 : h.getLast? ≠ some cmd) :
    (load_history lines).length ≤ MAX_HISTORY ∧
    (add_to_history hAny cmdAny).length ≤ MAX_HISTORY ∧
    add_to_history h cmd = h.tail ++ [cmd] := by
  refine ⟨load_history_loop_le lines [] (by simp [MAX_HISTORY]), ?_, ?_⟩
  · unfold add_to_history
    by_cases hc : cmdAny = ""
    · simp [hc, h1]
    · rw [if_neg hc]
      by_cases hd : hAny.getLast? = some cmdAny
      · simp [hd, h1]
      · rw [if_neg hd]
        by_cases hl : (hAny ++ [cmdAny]).length > MAX_HISTORY
        · rw [if_pos hl]
          simp
          omega
        · rw [if_neg hl]
          simp at hl ⊢
          omega
  · unfold add_to_history
    rw [if_neg h3, if_neg h4]
    have hlen : (h ++ [cmd]).length > MAX_HISTORY := by
      simp [h2]
    rw [if_pos hlen]
    cases h with
    | nil => simp [MAX_HISTORY] at h2
    | cons x xs => simp

/-- Claim C10, witness: the theorem at a full 1000-entry history of `x`
lines, adding `y`. -/
theorem history_capped_at_max_witness :
    (load_history []).length ≤ MAX_HISTORY ∧
    (add_to_history [] "z").length ≤ MAX_HISTORY ∧
    add_to_history (List.replicate 1000 "x") "y" =
      (List.replicate 1000 "x").tail ++ ["y"] :=
  history_capped_at_max [] [] (List.replicate 1000 "x") "y" "z"
    (by simp [MAX_HISTORY]) (by rw [List.length_replicate, MAX_HISTORY])
    (by decide)
    (by rw [getLast?_replicate_succ 999 "x"]; decide)

end LiteShell
